import Mathlib

/-!
Verification of the binary channel-list codec of `ha-samsungtv-advanced`
(`custom_components/samsungtv_advanced/channel.py`).

The Python code is shallow-embedded here:
  * a byte buffer is a `List Nat` (each element a byte value 0..255);
  * a Python `str` is a `List Char`;
  * Python's dynamically-typed attributes (the channel fields that hold an
    `int` when constructed from binary data but a `str` when constructed
    from XML) are modelled by the sum type `PyVal`;
  * exceptions are modelled by `Except Err` values, with one `Err`
    constructor per distinct raise site / runtime error, carrying exactly
    the data that the corresponding Python message interpolates.
-/

set_option maxRecDepth 8000

namespace SamsungChannel

deriving instance DecidableEq for Except

/-- Python values stored in the numeric channel attributes: `_parse_dat`
stores `int`s, `_parse_xml` stores the raw node-value strings. -/
inductive PyVal where
  | int : Nat → PyVal
  | str : List Char → PyVal
  deriving DecidableEq, Repr

/-- The errors the codec can raise.  Each constructor corresponds to one
raise site in `channel.py` (or a runtime error of the Python interpreter),
carrying the values its message interpolates:
  * `sizeError actual min` — `ParseException` "channel list is smaller than
    it has to be ... (%d bytes (actual) vs. 128 bytes";
  * `notMultipleError size` — `ParseException` "channel list's size (%d)
    minus 128 (header) is not a multiple of 124 bytes";
  * `strObjectNotCallable` — the `TypeError: 'str' object is not callable`
    raised at the count-mismatch check: the code there reads
    `ParseException((msg % (...))('Channel list: %s' % ...))` — a missing
    comma makes it call the formatted message string;
  * `unknownChannelType t` — `ParseException` "Unknown channel type %d";
  * `reservedFieldMismatch v` — `ParseException` "reserved field mismatch (%04x)";
  * `unicodeDecodeError` — `UnicodeDecodeError` from `bytes.decode('utf-8')`;
  * `wrongXmlDocument` — `ParseException` "Wrong XML document";
  * `percentDFormatError` — `TypeError` from `'%d' % s` when `s` is a `str`. -/
inductive Err where
  | sizeError : Nat → Nat → Err
  | notMultipleError : Nat → Err
  | strObjectNotCallable : Err
  | unknownChannelType : Nat → Err
  | reservedFieldMismatch : Nat → Err
  | unicodeDecodeError : Err
  | wrongXmlDocument : Err
  | percentDFormatError : Err
  deriving DecidableEq, Repr

/-- The `Channel` class.  `ch_type`, `dispno` and `title` are strings on
both construction paths; the other four fields are `PyVal` because the two
construction paths store different Python types in them. -/
structure Channel where
  ch_type : List Char
  major_ch : PyVal
  minor_ch : PyVal
  ptc : PyVal
  prog_num : PyVal
  dispno : List Char
  title : List Char
  deriving DecidableEq, Repr

instance : Nonempty Channel :=
  ⟨{ ch_type := [], major_ch := .int 0, minor_ch := .int 0, ptc := .int 0,
     prog_num := .int 0, dispno := [], title := [] }⟩

/-- `_getint(buf, offset)`: a 16-bit little-endian unsigned read from
`buf[offset:offset+2]` (`struct.unpack('<H', ...)`).  All call sites in
the code are in bounds when reached, so out-of-range reads (which would
raise in Python) are given the harmless default 0 here; every theorem
below constrains the buffer length so that the default is never used. -/
def getint (buf : List Nat) (off : Nat) : Nat :=
  buf.getD off 0 + 256 * buf.getD (off + 1) 0

/-- Python slicing `buf[a:b]` (for `0 ≤ a ≤ b`): truncates silently at the
end of the buffer. -/
def pySlice (buf : List Nat) (a b : Nat) : List Nat :=
  (buf.drop a).take (b - a)

/-- Is `b` a UTF-8 continuation byte (`0x80..0xBF`)? -/
def isContByte (b : Nat) : Bool :=
  128 ≤ b && b ≤ 191

/-- Strict UTF-8 decoding, as Python's `bytes.decode('utf-8')` (default
`errors='strict'`): rejects invalid start bytes, truncated sequences,
invalid continuation bytes, overlong encodings, surrogates and code points
above `0x10FFFF`; returns `none` where Python raises `UnicodeDecodeError`. -/
def utf8Decode : List Nat → Option (List Char)
  | [] => some []
  | b :: rest =>
    if b < 128 then
      (utf8Decode rest).map (fun cs => Char.ofNat b :: cs)
    else if 194 ≤ b && b ≤ 223 then
      match rest with
      | c1 :: rest2 =>
        if isContByte c1 then
          (utf8Decode rest2).map (fun cs => Char.ofNat ((b - 192) * 64 + (c1 - 128)) :: cs)
        else none
      | [] => none
    else if 224 ≤ b && b ≤ 239 then
      match rest with
      | c1 :: c2 :: rest2 =>
        let lo := if b = 224 then 160 else 128
        let hi := if b = 237 then 159 else 191
        if (lo ≤ c1 && c1 ≤ hi) && isContByte c2 then
          (utf8Decode rest2).map
            (fun cs => Char.ofNat ((b - 224) * 4096 + (c1 - 128) * 64 + (c2 - 128)) :: cs)
        else none
      | _ => none
    else if 240 ≤ b && b ≤ 244 then
      match rest with
      | c1 :: c2 :: c3 :: rest2 =>
        let lo := if b = 240 then 144 else 128
        let hi := if b = 244 then 143 else 191
        if ((lo ≤ c1 && c1 ≤ hi) && isContByte c2) && isContByte c3 then
          (utf8Decode rest2).map
            (fun cs => Char.ofNat
              ((b - 240) * 262144 + (c1 - 128) * 4096 + (c2 - 128) * 64 + (c3 - 128)) :: cs)
        else none
      | _ => none
    else none

/-- Python `str.rstrip('\x00')`: drop trailing NUL characters. -/
def rstripNul (s : List Char) : List Char :=
  (s.reverse.dropWhile (fun c => c = Char.ofNat 0)).reverse

/-- String literals for the three channel types. -/
def strDTV : List Char := ['D', 'T', 'V']

def strCATV : List Char := ['C', 'A', 'T', 'V']

def strCDTV : List Char := ['C', 'D', 'T', 'V']

/-- `Channel._parse_dat(buf)`: decode one binary record.  Mirrors the
source statement by statement: type-code dispatch (4→CDTV, 3→CATV, 2→DTV,
else `ParseException`), the four u16le fields, the reserved-field check at
offset 10, `dispno = buf[12:16].decode('utf-8').rstrip('\x00')`, and
`title = buf[24:24+title_len].decode('utf-8')` with
`title_len = _getint(buf, 22)`. -/
def parse_dat (buf : List Nat) : Except Err Channel :=
  match (if getint buf 0 = 4 then some strCDTV
         else if getint buf 0 = 3 then some strCATV
         else if getint buf 0 = 2 then some strDTV
         else none) with
  | none => .error (.unknownChannelType (getint buf 0))
  | some chty =>
    if getint buf 10 = 65535 then
      match utf8Decode (pySlice buf 12 16) with
      | none => .error .unicodeDecodeError
      | some dsp =>
        match utf8Decode (pySlice buf 24 (24 + getint buf 22)) with
        | none => .error .unicodeDecodeError
        | some ttl =>
          .ok { ch_type := chty
                major_ch := .int (getint buf 2)
                minor_ch := .int (getint buf 4)
                ptc := .int (getint buf 6)
                prog_num := .int (getint buf 8)
                dispno := rstripNul dsp
                title := ttl }
    else .error (.reservedFieldMismatch (getint buf 10))

/-- A Python `dict` from `dispno` strings to `Channel`s, modelled as an
insertion-ordered association list. -/
abbrev ChannelDict := List (List Char × Channel)

/-- `d[k] = v` on a Python dict: overwrite in place when the key is
present, append otherwise. -/
def dictSet (d : ChannelDict) (k : List Char) (v : Channel) : ChannelDict :=
  if d.any (fun p => p.1 = k) then
    d.map (fun p => if p.1 = k then (k, v) else p)
  else d ++ [(k, v)]

/-- `d[k]` lookup (as an `Option`). -/
def dictGet (d : ChannelDict) (k : List Char) : Option Channel :=
  (d.find? (fun p => p.1 = k)).map (fun p => p.2)

/-- The `while pos < len(channel_list)` loop of `_parse_channel_list`:
slice a 124-byte chunk at `pos`, construct a `Channel` from it
(propagating its failure), store it under its `dispno`, advance by 124. -/
def parseLoop (cl : List Nat) (pos : Nat) (acc : ChannelDict) : Except Err ChannelDict :=
  if h : pos < cl.length then
    match parse_dat (pySlice cl pos (pos + 124)) with
    | .error e => .error e
    | .ok ch => parseLoop cl (pos + 124) (dictSet acc ch.dispno ch)
  else .ok acc
termination_by cl.length - pos
decreasing_by omega

/-- `Channel._parse_channel_list(channel_list)`: the three header checks,
then the record loop starting at offset 4.

Two faithfulness notes on the third check.  First, the source computes the
record count with true division, `(len(channel_list)-4) / 124`, a float;
since divisibility by 124 was checked just before, the float is an exact
integer (lengths far below 2^53), so natural division is equivalent here.
Second, when that count differs from the header count the source reads
`raise ParseException((...long message...)('Channel list: %s' % ...))` — a
missing comma between the two arguments, so Python calls the formatted
message string and raises `TypeError: 'str' object is not callable`
instead of the intended `ParseException`; `Err.strObjectNotCallable`
models exactly that behaviour. -/
def parse_channel_list (cl : List Nat) : Except Err ChannelDict :=
  if cl.length < 128 then
    .error (.sizeError cl.length 128)
  else if (cl.length - 4) % 124 ≠ 0 then
    .error (.notMultipleError cl.length)
  else if (cl.length - 4) / 124 ≠ getint cl 2 then .error .strObjectNotCallable
  else parseLoop cl 4 []

/-- `Channel._parse_xml(root)`: the minidom document is abstracted to the
association of tag names with the text content of the first element of
that name (`getElementsByTagName(tag)[0].childNodes[0].nodeValue`); an
absent element or an element with no text child makes the extraction fail,
and any failure among the five is collapsed into the single
"Wrong XML document" error, exactly as the `except` clause does.  The five
values are stored as raw strings, `dispno` aliases the `MajorCh` string
and `title` is set to the empty string. -/
def getTagText (doc : List (List Char × List Char)) (tag : List Char) : Option (List Char) :=
  match doc.find? (fun p => p.1 = tag) with
  | some p => if p.2 = [] then none else some p.2
  | none => none

/-- The body of `Channel._parse_xml`, over the abstracted document (see
`getTagText`). -/
def parse_xml (doc : List (List Char × List Char)) : Except Err Channel :=
  match getTagText doc ['C','h','T','y','p','e'], getTagText doc ['M','a','j','o','r','C','h'],
        getTagText doc ['M','i','n','o','r','C','h'], getTagText doc ['P','T','C'],
        getTagText doc ['P','r','o','g','N','u','m'] with
  | some ct, some ma, some mi, some pt, some pn =>
    .ok { ch_type := ct, major_ch := .str ma, minor_ch := .str mi,
          ptc := .str pt, prog_num := .str pn, dispno := ma, title := [] }
  | _, _, _, _, _ => .error .wrongXmlDocument

/-- The decimal digit character for `d < 10`. -/
def digitChar (d : Nat) : Char := Char.ofNat (48 + d)

/-- Fuel-driven core of decimal rendering (least-significant digit first
into the accumulator). -/
def toDecCore : Nat → Nat → List Char → List Char
  | 0, _, acc => acc
  | fuel + 1, n, acc =>
    if n < 10 then digitChar n :: acc
    else toDecCore fuel (n / 10) (digitChar (n % 10) :: acc)

/-- Python `'%d' % n` for a non-negative `int`: unpadded decimal text. -/
def natToDecimal (n : Nat) : List Char := toDecCore (n + 1) n []

/-- `'%d' % v`: renders an `int` as decimal, raises `TypeError` on a `str`. -/
def renderD (v : PyVal) : Except Err (List Char) :=
  match v with
  | .int n => .ok (natToDecimal n)
  | .str _ => .error .percentDFormatError

/-- One character under `xml.sax.saxutils.escape`: `&`, `<` and `>` become
entity references, everything else is unchanged.  (`escape` performs the
`&` replacement first, so its sequential `str.replace` calls are exactly
this character-wise map.) -/
def escChar (c : Char) : List Char :=
  if c = '&' then ['&', 'a', 'm', 'p', ';']
  else if c = '<' then ['&', 'l', 't', ';']
  else if c = '>' then ['&', 'g', 't', ';']
  else [c]

/-- `xml.sax.saxutils.escape` on a whole string. -/
def escape : List Char → List Char
  | [] => []
  | c :: rest => escChar c ++ escape rest

/-- The literal pieces of the `as_xml` format string. -/
def xmlPre : List Char :=
  "<?xml version=\"1.0\" encoding=\"UTF-8\" ?><Channel><ChType>".data

def xmlSep1 : List Char := "</ChType><MajorCh>".data

def xmlSep2 : List Char := "</MajorCh><MinorCh>".data

def xmlSep3 : List Char := "</MinorCh><PTC>".data

def xmlSep4 : List Char := "</PTC><ProgNum>".data

def xmlSuf : List Char := "</ProgNum></Channel>".data

/-- `Channel.as_xml`: the fixed-shape XML document, with `ch_type` passed
through `escape` and the four numeric fields rendered with `%d`.  When a
numeric field holds a string (the XML construction path), `%d` raises
`TypeError`. -/
def as_xml (c : Channel) : Except Err (List Char) :=
  match renderD c.major_ch, renderD c.minor_ch, renderD c.ptc, renderD c.prog_num with
  | .ok ma, .ok mi, .ok pt, .ok pn =>
    .ok (xmlPre ++ escape c.ch_type ++ xmlSep1 ++ ma ++ xmlSep2 ++ mi
           ++ xmlSep3 ++ pt ++ xmlSep4 ++ pn ++ xmlSuf)
  | _, _, _, _ => .error .percentDFormatError

/-- XML text unescaping for the three entity references `escape` can emit
(`&amp;` `&lt;` `&gt;`), as an XML parser such as minidom resolves them in
text content.  (minidom also resolves the quote entities and numeric
references; they never occur in this codec's documents.) -/
def xmlUnescape : List Char → List Char
  | [] => []
  | '&' :: 'a' :: 'm' :: 'p' :: ';' :: rest => '&' :: xmlUnescape rest
  | '&' :: 'l' :: 't' :: ';' :: rest => '<' :: xmlUnescape rest
  | '&' :: 'g' :: 't' :: ';' :: rest => '>' :: xmlUnescape rest
  | c :: rest => c :: xmlUnescape rest

/-- Is `p` a prefix of `s`? -/
def isPre : List Char → List Char → Bool
  | [], _ => true
  | _ :: _, [] => false
  | p :: ps, c :: cs => p = c && isPre ps cs

/-- The suffix of `s` after the first occurrence of `pat`, or `none` when
`pat` does not occur. -/
def dropThrough (pat : List Char) : List Char → Option (List Char)
  | [] => if pat.isEmpty then some [] else none
  | c :: rest =>
    if isPre pat (c :: rest) then some ((c :: rest).drop pat.length)
    else dropThrough pat rest

/-- Extract the text content of the first element named `tag` from an XML
document, the way the XML construction path reads it (first element of the
name, its text up to the next markup, entities resolved): scan to the
first `<tag>`, take the following characters up to the next `<`, unescape. -/
def extractTag (tag s : List Char) : Option (List Char) :=
  (dropThrough (('<' :: tag) ++ ['>']) s).map
    (fun r => xmlUnescape (r.takeWhile (fun c => c ≠ '<')))

/-- Read a decimal digit string back as a number (`none` unless the string
is non-empty and all digits). -/
def decToNat (s : List Char) : Option Nat :=
  if s ≠ [] ∧ s.all (fun c => c.isDigit) then
    some (s.foldl (fun a c => a * 10 + (c.toNat - 48)) 0)
  else none

/-! ### Helper lemmas about `parse_dat` -/

/-- Inversion of a successful binary record decode: which checks must have
passed and how every field of the resulting `Channel` is determined by the
record bytes. -/
theorem parse_dat_ok_inv {buf : List Nat} {ch : Channel} (h : parse_dat buf = .ok ch) :
    ((getint buf 0 = 2 ∧ ch.ch_type = strDTV) ∨ (getint buf 0 = 3 ∧ ch.ch_type = strCATV) ∨
      (getint buf 0 = 4 ∧ ch.ch_type = strCDTV)) ∧
    ch.major_ch = .int (getint buf 2) ∧ ch.minor_ch = .int (getint buf 4) ∧
    ch.ptc = .int (getint buf 6) ∧ ch.prog_num = .int (getint buf 8) ∧
    getint buf 10 = 65535 ∧
    (∃ dsp, utf8Decode (pySlice buf 12 16) = some dsp ∧ ch.dispno = rstripNul dsp) ∧
    utf8Decode (pySlice buf 24 (24 + getint buf 22)) = some ch.title := by
  unfold parse_dat at h
  cases hco : (if getint buf 0 = 4 then some strCDTV
               else if getint buf 0 = 3 then some strCATV
               else if getint buf 0 = 2 then some strDTV
               else none) with
  | none => rw [hco] at h; exact absurd h (by simp)
  | some chty =>
    rw [hco] at h
    dsimp only at h
    by_cases hr : getint buf 10 = 65535
    · rw [if_pos hr] at h
      cases hd : utf8Decode (pySlice buf 12 16) with
      | none => rw [hd] at h; exact absurd h (by simp)
      | some dsp =>
        rw [hd] at h
        cases ht : utf8Decode (pySlice buf 24 (24 + getint buf 22)) with
        | none => rw [ht] at h; exact absurd h (by simp)
        | some ttl =>
          rw [ht] at h
          simp only [Except.ok.injEq] at h
          subst h
          refine ⟨?_, by simp, by simp, by simp, by simp, hr, ⟨dsp, rfl, by simp⟩, by simp⟩
          split_ifs at hco with c4 c3 c2
          · exact Or.inr (Or.inr ⟨c4, by simp_all⟩)
          · exact Or.inr (Or.inl ⟨c3, by simp_all⟩)
          · exact Or.inl ⟨c2, by simp_all⟩
    · rw [if_neg hr] at h; exact absurd h (by simp)

/-! ### C8 — short buffers -/

/-- C8: every buffer shorter than 128 bytes makes `_parse_channel_list`
fail with the size `ParseException` citing the actual length and the
128-byte minimum, regardless of content, before any record is decoded. -/
theorem c8_short_buffer_size_error (cl : List Nat) (h : cl.length < 128) :
    parse_channel_list cl = .error (.sizeError cl.length 128) := by
  simp [parse_channel_list, h]

/-- Witness for C8 at the empty buffer. -/
theorem c8_short_buffer_size_error_witness :
    parse_channel_list [] = .error (.sizeError 0 128) :=
  c8_short_buffer_size_error [] (by decide)

/-! ### C1 — count mismatch -/

/-- C1: when the buffer passes the minimum-size and divisibility checks
but the computed record count `(length-4)/124` differs from the header
count, the decode fails — but with the `TypeError` of calling a string
(the missing comma at the raise site), not with the intended count-mismatch
`ParseException` reporting both values. -/
theorem c1_count_mismatch_raises_typeerror (cl : List Nat)
    (h1 : ¬ cl.length < 128) (h2 : (cl.length - 4) % 124 = 0)
    (h3 : (cl.length - 4) / 124 ≠ getint cl 2) :
    parse_channel_list cl = .error .strObjectNotCallable := by
  simp [parse_channel_list, h1, h2, h3]

/-- Witness for C1: 128 zero bytes (computed count 1, declared count 0). -/
theorem c1_count_mismatch_raises_typeerror_witness :
    parse_channel_list (List.replicate 128 0) = .error .strObjectNotCallable :=
  c1_count_mismatch_raises_typeerror _ (by decide) (by decide) (by decide)

/-! ### C6 — type-code dispatch -/

/-- C6: the u16le type code at offset 0 dispatches deterministically —
2 gives `ch_type = "DTV"`, 3 gives `"CATV"`, 4 gives `"CDTV"`, and any
other code makes binary construction fail with the unknown-type error
(so no `Channel` is produced). -/
theorem c6_type_code_dispatch (buf : List Nat) :
    (getint buf 0 ≠ 2 → getint buf 0 ≠ 3 → getint buf 0 ≠ 4 →
      parse_dat buf = .error (.unknownChannelType (getint buf 0))) ∧
    ∀ ch : Channel, parse_dat buf = .ok ch →
      (getint buf 0 = 2 ∧ ch.ch_type = strDTV) ∨
      (getint buf 0 = 3 ∧ ch.ch_type = strCATV) ∨
      (getint buf 0 = 4 ∧ ch.ch_type = strCDTV) := by
  refine ⟨fun h2 h3 h4 => ?_, fun ch h => (parse_dat_ok_inv h).1⟩
  simp [parse_dat, h2, h3, h4]

/-- A 124-byte record whose type code is 5 (everything else zero). -/
def c6rec : List Nat := 5 :: 0 :: List.replicate 122 0

/-- Witness for C6: type code 5 fails with the unknown-type error. -/
theorem c6_type_code_dispatch_witness :
    parse_dat c6rec = .error (.unknownChannelType 5) := by
  have h := (c6_type_code_dispatch c6rec).1 (by decide) (by decide) (by decide)
  exact (by decide : getint c6rec 0 = 5) ▸ h

/-! ### C7 — reserved field -/

/-- A 124-byte record with type code 1 and reserved field 0. -/
def c7rec : List Nat := 1 :: 0 :: List.replicate 122 0

/-- Counterexample to C7 as stated: this record's reserved field (0) is
not 0xFFFF, yet binary construction fails with the unknown-type error for
its type code 1 — not with a reserved-field-mismatch error. -/
theorem c7_counterexample :
    getint c7rec 10 ≠ 65535 ∧ parse_dat c7rec = .error (.unknownChannelType 1) := by
  decide

/-- C7 (amended): a record whose u16le field at offset 10 is not 0xFFFF
always fails — with the reserved-field-mismatch error when the type code
is one of 2, 3, 4, and with the unknown-type error (checked first)
otherwise. -/
theorem c7_amended_reserved_field (buf : List Nat) (h : getint buf 10 ≠ 65535) :
    parse_dat buf =
      .error (if getint buf 0 = 2 ∨ getint buf 0 = 3 ∨ getint buf 0 = 4
              then .reservedFieldMismatch (getint buf 10)
              else .unknownChannelType (getint buf 0)) := by
  by_cases h4 : getint buf 0 = 4
  · simp [parse_dat, h4, h]
  · by_cases h3 : getint buf 0 = 3
    · simp [parse_dat, h4, h3, h]
    · by_cases h2 : getint buf 0 = 2
      · simp [parse_dat, h2, h3, h4, h]
      · simp [parse_dat, h2, h3, h4, h]

/-- A 124-byte record with type code 2 and reserved field 0. -/
def c7rec2 : List Nat := 2 :: 0 :: List.replicate 122 0

/-- Witness for the amended C7: valid type code 2, reserved field 0. -/
theorem c7_amended_reserved_field_witness :
    parse_dat c7rec2 = .error (.reservedFieldMismatch 0) := by
  have h := c7_amended_reserved_field c7rec2 (by decide)
  simpa [show getint c7rec2 0 = 2 by decide, show getint c7rec2 10 = 0 by decide] using h

/-! ### C2 / C10 — declared title length beyond the record end -/

theorem getD_take_eq {α : Type} {l : List α} {m n : Nat} (h : n < m) (d : α) :
    (l.take m).getD n d = l.getD n d := by
  simp only [List.getD_eq_getD_get?, List.get?_eq_getElem?]
  rw [List.getElem?_take_of_lt h]

/-- A 124-byte record with valid type code 2, reserved field 0xFFFF,
dispno bytes "1\0\0\0", declared title length 101 (beyond the 100 bytes
remaining in the record) and 100 bytes of ASCII 'A' after offset 24. -/
def c2rec : List Nat :=
  [2, 0, 1, 0, 0, 0, 0, 0, 0, 0, 255, 255, 49, 0, 0, 0, 0, 0, 0, 0, 0, 0, 101, 0]
    ++ List.replicate 100 65

/-- Counterexample to C2 as stated: this record declares title length 101
(> 100), yet binary construction succeeds (the title slice silently
truncates at the record end) instead of failing with an out-of-range
error. -/
theorem c2_counterexample :
    getint c2rec 22 = 101 ∧ (parse_dat c2rec).isOk = true := by
  decide

/-- C2 (amended): a 124-byte record whose declared title length exceeds
100 is not rejected; the title slice silently truncates at the record
end, so construction behaves exactly as if the declared length were the
100 available bytes (the record with its length field overwritten by
100). -/
theorem c2_amended_title_length_truncates (buf : List Nat)
    (h : buf.length = 124) (h2 : 100 < getint buf 22) :
    parse_dat buf = parse_dat (buf.take 22 ++ [100, 0] ++ buf.drop 24) := by
  have hA : (buf.take 22).length = 22 := by simp [h]
  have hA2 : (buf.take 22 ++ [100, 0]).length = 24 := by simp [hA]
  have hg : ∀ i, i < 22 →
      (buf.take 22 ++ [100, 0] ++ buf.drop 24).getD i 0 = buf.getD i 0 := by
    intro i hi
    rw [List.getD_append _ _ _ _ (by rw [hA2]; omega),
        List.getD_append _ _ _ _ (by rw [hA]; omega)]
    exact getD_take_eq hi 0
  have hgetint : ∀ i, i + 1 < 22 →
      getint (buf.take 22 ++ [100, 0] ++ buf.drop 24) i = getint buf i := by
    intro i hi
    unfold getint
    rw [hg i (by omega), hg (i + 1) hi]
  have e22 : (buf.take 22 ++ [100, 0] ++ buf.drop 24).getD 22 0 = 100 := by
    rw [List.getD_append _ _ _ _ (by rw [hA2]; omega),
        List.getD_append_right _ _ _ _ (by rw [hA]), hA]
    decide
  have e23 : (buf.take 22 ++ [100, 0] ++ buf.drop 24).getD 23 0 = 0 := by
    rw [List.getD_append _ _ _ _ (by rw [hA2]; omega),
        List.getD_append_right _ _ _ _ (by rw [hA]; omega), hA]
    decide
  have h22 : getint (buf.take 22 ++ [100, 0] ++ buf.drop 24) 22 = 100 := by
    unfold getint
    rw [e22, e23]
  have hdrop : (buf.take 22 ++ [100, 0] ++ buf.drop 24).drop 24 = buf.drop 24 :=
    List.drop_left' hA2
  have hdsp : pySlice (buf.take 22 ++ [100, 0] ++ buf.drop 24) 12 16 = pySlice buf 12 16 := by
    unfold pySlice
    rw [List.drop_append_of_le_length (by omega),
        List.take_append_of_le_length (by simp [hA2]),
        List.drop_append_of_le_length (by omega),
        List.take_append_of_le_length (by simp [hA]),
        List.drop_take, List.take_take]
    norm_num
  have hlen24 : (buf.drop 24).length = 100 := by simp [h]
  have httl : pySlice (buf.take 22 ++ [100, 0] ++ buf.drop 24) 24
      (24 + getint (buf.take 22 ++ [100, 0] ++ buf.drop 24) 22) =
      pySlice buf 24 (24 + getint buf 22) := by
    unfold pySlice
    rw [h22, hdrop]
    rw [List.take_of_length_le (by omega), List.take_of_length_le (by omega)]
  unfold parse_dat
  rw [hgetint 0 (by omega), hgetint 2 (by omega), hgetint 4 (by omega), hgetint 6 (by omega),
      hgetint 8 (by omega), hgetint 10 (by omega), hdsp, httl]

/-- Witness for the amended C2 at the concrete record `c2rec`. -/
theorem c2_amended_title_length_truncates_witness :
    parse_dat c2rec = parse_dat (c2rec.take 22 ++ [100, 0] ++ c2rec.drop 24) :=
  c2_amended_title_length_truncates c2rec (by decide) (by decide)

/-- C10: a 124-byte record with a known type code and reserved field
0xFFFF never reads past the record: when the declared title length
exceeds the 100 bytes after offset 24, the title slice is exactly the
available bytes 24..123, and construction succeeds (with that truncated
title) whenever those bytes and the dispno bytes decode as UTF-8. -/
theorem c10_no_overread_truncates (buf : List Nat) (dsp ttl : List Char)
    (h : buf.length = 124)
    (htyp : getint buf 0 = 2 ∨ getint buf 0 = 3 ∨ getint buf 0 = 4)
    (hr : getint buf 10 = 65535)
    (h2 : 100 < getint buf 22)
    (hd : utf8Decode (pySlice buf 12 16) = some dsp)
    (ht : utf8Decode (buf.drop 24) = some ttl) :
    pySlice buf 24 (24 + getint buf 22) = buf.drop 24 ∧
    ∃ ch, parse_dat buf = .ok ch ∧ ch.title = ttl ∧ ch.dispno = rstripNul dsp := by
  have hlen24 : (buf.drop 24).length = 100 := by simp [h]
  have hslice : pySlice buf 24 (24 + getint buf 22) = buf.drop 24 := by
    unfold pySlice
    exact List.take_of_length_le (by omega)
  refine ⟨hslice, ?_⟩
  rcases htyp with h0 | h0 | h0
  · refine ⟨{ ch_type := strDTV, major_ch := .int (getint buf 2), minor_ch := .int (getint buf 4),
              ptc := .int (getint buf 6), prog_num := .int (getint buf 8),
              dispno := rstripNul dsp, title := ttl }, ?_, rfl, rfl⟩
    simp [parse_dat, h0, hr, hd, hslice, ht]
  · refine ⟨{ ch_type := strCATV, major_ch := .int (getint buf 2), minor_ch := .int (getint buf 4),
              ptc := .int (getint buf 6), prog_num := .int (getint buf 8),
              dispno := rstripNul dsp, title := ttl }, ?_, rfl, rfl⟩
    simp [parse_dat, h0, hr, hd, hslice, ht]
  · refine ⟨{ ch_type := strCDTV, major_ch := .int (getint buf 2), minor_ch := .int (getint buf 4),
              ptc := .int (getint buf 6), prog_num := .int (getint buf 8),
              dispno := rstripNul dsp, title := ttl }, ?_, rfl, rfl⟩
    simp [parse_dat, h0, hr, hd, hslice, ht]

/-- Witness for C10 at the concrete record `c2rec`. -/
theorem c10_no_overread_truncates_witness :
    ∃ ch, parse_dat c2rec = .ok ch ∧
      ch.title = List.replicate 100 'A' ∧ ch.dispno = ['1'] := by
  obtain ⟨-, ch, hok, httl, hdsp⟩ :=
    c10_no_overread_truncates c2rec ('1' :: List.replicate 3 (Char.ofNat 0))
      (List.replicate 100 'A') (by decide) (by decide) (by decide) (by decide)
      (by decide) (by decide)
  exact ⟨ch, hok, httl, by rw [hdsp]; decide⟩

/-! ### Decimal rendering lemmas -/

theorem toDecCore_acc (fuel : Nat) : ∀ n acc, toDecCore fuel n acc = toDecCore fuel n [] ++ acc := by
  induction fuel with
  | zero => intro n acc; rfl
  | succ f ih =>
    intro n acc
    by_cases h : n < 10
    · simp [toDecCore, h]
    · simp only [toDecCore, h, if_false]
      rw [ih (n / 10) (digitChar (n % 10) :: acc), ih (n / 10) [digitChar (n % 10)]]
      simp

theorem toDecCore_fuel : ∀ f1 f2 n acc, n < f1 → n < f2 →
    toDecCore f1 n acc = toDecCore f2 n acc := by
  intro f1
  induction f1 with
  | zero => intro f2 n acc h1 h2; exact absurd h1 (Nat.not_lt_zero n)
  | succ f ih =>
    intro f2 n acc h1 h2
    cases f2 with
    | zero => exact absurd h2 (Nat.not_lt_zero n)
    | succ g =>
      by_cases h : n < 10
      · simp [toDecCore, h]
      · simp only [toDecCore, h, if_false]
        exact ih g (n / 10) _ (by omega) (by omega)

theorem natToDecimal_small (n : Nat) (h : n < 10) : natToDecimal n = [digitChar n] := by
  simp [natToDecimal, toDecCore, h]

theorem natToDecimal_step (n : Nat) (h : 10 ≤ n) :
    natToDecimal n = natToDecimal (n / 10) ++ [digitChar (n % 10)] := by
  unfold natToDecimal
  rw [show toDecCore (n + 1) n [] = toDecCore n (n / 10) [digitChar (n % 10)] from by
        simp [toDecCore, Nat.not_lt.mpr h]]
  rw [toDecCore_acc]
  congr 1
  exact toDecCore_fuel n (n / 10 + 1) (n / 10) [] (by omega) (by omega)

theorem natToDecimal_ne_nil (n : Nat) : natToDecimal n ≠ [] := by
  by_cases h : n < 10
  · simp [natToDecimal_small n h]
  · rw [natToDecimal_step n (by omega)]; simp

theorem digitChar_isDigit {d : Nat} (h : d < 10) : (digitChar d).isDigit = true := by
  interval_cases d <;> decide

theorem digitChar_toNat {d : Nat} (h : d < 10) : (digitChar d).toNat = 48 + d := by
  interval_cases d <;> decide

theorem natToDecimal_all_digits (n : Nat) : ∀ c ∈ natToDecimal n, c.isDigit = true := by
  induction n using Nat.strong_induction_on with
  | _ n ih =>
    by_cases h : n < 10
    · rw [natToDecimal_small n h]
      intro c hc
      simp at hc
      subst hc
      exact digitChar_isDigit h
    · rw [natToDecimal_step n (by omega)]
      intro c hc
      rcases List.mem_append.mp hc with hc | hc
      · exact ih (n / 10) (by omega) c hc
      · simp at hc
        subst hc
        exact digitChar_isDigit (by omega)

theorem natToDecimal_head (n : Nat) (h : n ≠ 0) : (natToDecimal n).head? ≠ some '0' := by
  induction n using Nat.strong_induction_on with
  | _ n ih =>
    by_cases hs : n < 10
    · rw [natToDecimal_small n hs]
      simp only [List.head?_cons, ne_eq, Option.some.injEq]
      interval_cases n
      · exact absurd rfl h
      all_goals decide
    · rw [natToDecimal_step n (by omega)]
      have hne := natToDecimal_ne_nil (n / 10)
      cases hx : natToDecimal (n / 10) with
      | nil => exact absurd hx hne
      | cons a as =>
        have h2 := ih (n / 10) (by omega) (by omega)
        rw [hx] at h2
        simpa using h2

theorem natToDecimal_foldl (n : Nat) :
    (natToDecimal n).foldl (fun a c => a * 10 + (c.toNat - 48)) 0 = n := by
  induction n using Nat.strong_induction_on with
  | _ n ih =>
    by_cases h : n < 10
    · rw [natToDecimal_small n h]
      simp [digitChar_toNat h]
    · rw [natToDecimal_step n (by omega), List.foldl_append]
      simp only [List.foldl_cons, List.foldl_nil]
      rw [ih (n / 10) (by omega), digitChar_toNat (by omega : n % 10 < 10)]
      omega

theorem decToNat_natToDecimal (n : Nat) : decToNat (natToDecimal n) = some n := by
  unfold decToNat
  rw [if_pos ⟨natToDecimal_ne_nil n, by
        rw [List.all_eq_true]
        exact fun c hc => natToDecimal_all_digits n c hc⟩]
  rw [natToDecimal_foldl]

/-! ### Escape / unescape lemmas -/

theorem escChar_no_angle (a : Char) : ∀ x ∈ escChar a, x ≠ '<' ∧ x ≠ '>' := by
  unfold escChar
  split_ifs with h1 h2 h3 <;> intro x hx <;> simp at hx
  · rcases hx with rfl | rfl | rfl | rfl | rfl <;> exact ⟨by decide, by decide⟩
  · rcases hx with rfl | rfl | rfl | rfl <;> exact ⟨by decide, by decide⟩
  · rcases hx with rfl | rfl | rfl | rfl <;> exact ⟨by decide, by decide⟩
  · subst hx; exact ⟨h2, h3⟩

theorem escape_no_angle (s : List Char) : ∀ x ∈ escape s, x ≠ '<' ∧ x ≠ '>' := by
  induction s with
  | nil => simp [escape]
  | cons a s ih =>
    intro x hx
    simp only [escape] at hx
    rcases List.mem_append.mp hx with hx | hx
    · exact escChar_no_angle a x hx
    · exact ih x hx

theorem xmlUnescape_cons_ne_amp (a : Char) (h : a ≠ '&') (s : List Char) :
    xmlUnescape (a :: s) = a :: xmlUnescape s := by
  rw [xmlUnescape.eq_def]
  split
  all_goals simp_all

theorem escape_unescape (s : List Char) : xmlUnescape (escape s) = s := by
  induction s with
  | nil => rfl
  | cons a s ih =>
    by_cases h1 : a = '&'
    · subst h1
      show xmlUnescape ('&' :: 'a' :: 'm' :: 'p' :: ';' :: escape s) = _
      rw [show xmlUnescape ('&' :: 'a' :: 'm' :: 'p' :: ';' :: escape s)
            = '&' :: xmlUnescape (escape s) from rfl, ih]
    · by_cases h2 : a = '<'
      · subst h2
        show xmlUnescape ('&' :: 'l' :: 't' :: ';' :: escape s) = _
        rw [show xmlUnescape ('&' :: 'l' :: 't' :: ';' :: escape s)
              = '<' :: xmlUnescape (escape s) from rfl, ih]
      · by_cases h3 : a = '>'
        · subst h3
          show xmlUnescape ('&' :: 'g' :: 't' :: ';' :: escape s) = _
          rw [show xmlUnescape ('&' :: 'g' :: 't' :: ';' :: escape s)
                = '>' :: xmlUnescape (escape s) from rfl, ih]
        · show xmlUnescape (escChar a ++ escape s) = _
          rw [show escChar a = [a] from by simp [escChar, h1, h2, h3],
              List.singleton_append, xmlUnescape_cons_ne_amp a h1, ih]

theorem xmlUnescape_no_amp (s : List Char) (h : ∀ c ∈ s, c ≠ '&') : xmlUnescape s = s := by
  induction s with
  | nil => rfl
  | cons a s ih =>
    rw [xmlUnescape_cons_ne_amp a (h a (by simp)) s, ih (fun c hc => h c (by simp [hc]))]

/-! ### C9 — shape of the XML encoding -/

/-- C9: for a `Channel` whose four numeric fields are integers, `as_xml`
returns exactly the fixed-shape document — prologue, `ChType` holding the
escaped `ch_type`, then `MajorCh`, `MinorCh`, `PTC`, `ProgNum` holding the
integers in decimal — where the escaping replaces every `&`, `<`, `>`
faithfully (it is inverted by entity resolution and leaves no raw `<` or
`>` in the inserted text, keeping the document well-formed for any
`ch_type`), and the decimal rendering is non-empty, all digits, and
unpadded (no leading zero except for the number 0 itself). -/
theorem c9_to_xml_fixed_shape (c : Channel) (m mi pt pn : Nat)
    (h1 : c.major_ch = .int m) (h2 : c.minor_ch = .int mi)
    (h3 : c.ptc = .int pt) (h4 : c.prog_num = .int pn) :
    as_xml c = .ok (xmlPre ++ escape c.ch_type ++ xmlSep1 ++ natToDecimal m ++ xmlSep2
        ++ natToDecimal mi ++ xmlSep3 ++ natToDecimal pt ++ xmlSep4 ++ natToDecimal pn
        ++ xmlSuf) ∧
    xmlUnescape (escape c.ch_type) = c.ch_type ∧
    (∀ x ∈ escape c.ch_type, x ≠ '<' ∧ x ≠ '>') ∧
    (∀ k ∈ [m, mi, pt, pn], natToDecimal k ≠ [] ∧
      (∀ x ∈ natToDecimal k, x.isDigit = true) ∧
      ((natToDecimal k).head? = some '0' → k = 0)) := by
  refine ⟨by simp [as_xml, h1, h2, h3, h4, renderD], escape_unescape c.ch_type,
          escape_no_angle c.ch_type, ?_⟩
  intro k hk
  refine ⟨natToDecimal_ne_nil k, natToDecimal_all_digits k, ?_⟩
  intro hh
  by_contra hk0
  exact natToDecimal_head k hk0 hh

/-- A concrete channel whose `ch_type` contains `&`, `<` and `>`. -/
def c9ch : Channel :=
  { ch_type := ['A', '<', '&', '>', 'B'], major_ch := .int 0, minor_ch := .int 10,
    ptc := .int 305, prog_num := .int 65535, dispno := [], title := [] }

/-- Witness for C9 at `c9ch`. -/
theorem c9_to_xml_fixed_shape_witness :
    as_xml c9ch = .ok (xmlPre ++ escape c9ch.ch_type ++ xmlSep1 ++ natToDecimal 0 ++ xmlSep2
        ++ natToDecimal 10 ++ xmlSep3 ++ natToDecimal 305 ++ xmlSep4 ++ natToDecimal 65535
        ++ xmlSuf) :=
  (c9_to_xml_fixed_shape c9ch 0 10 305 65535 rfl rfl rfl rfl).1

/-! ### C5 — channels constructed from XML cannot be re-encoded -/

/-- C5: a `Channel` built by the XML construction path stores the five
extracted values as raw strings — `dispno` aliases the `MajorCh` string
and `title` is empty — and calling `as_xml` on it fails with the
`TypeError` of rendering a string with `%d`, whereas `as_xml` always
succeeds on a binary-constructed `Channel`. -/
theorem c5_xml_channel_fields_are_strings (doc : List (List Char × List Char)) (ch : Channel)
    (h : parse_xml doc = .ok ch) :
    (∃ s, ch.major_ch = .str s ∧ ch.dispno = s) ∧
    (∃ s, ch.minor_ch = .str s) ∧ (∃ s, ch.ptc = .str s) ∧ (∃ s, ch.prog_num = .str s) ∧
    ch.title = [] ∧
    as_xml ch = .error .percentDFormatError ∧
    ∀ (buf : List Nat) (ch2 : Channel), parse_dat buf = .ok ch2 →
      (as_xml ch2).isOk = true := by
  unfold parse_xml at h
  split at h
  case _ ct ma mi pt pn hct hma hmi hpt hpn =>
    simp only [Except.ok.injEq] at h
    subst h
    refine ⟨⟨ma, rfl, rfl⟩, ⟨mi, rfl⟩, ⟨pt, rfl⟩, ⟨pn, rfl⟩, rfl,
            by simp [as_xml, renderD], ?_⟩
    intro buf ch2 h2
    obtain ⟨-, hma2, hmi2, hpt2, hpn2, -⟩ := parse_dat_ok_inv h2
    simp [as_xml, hma2, hmi2, hpt2, hpn2, renderD, Except.isOk, Except.toBool]
  case _ =>
    exact absurd h (by simp)

/-- A minidom-style document carrying the five required elements. -/
def c5doc : List (List Char × List Char) :=
  [(['C','h','T','y','p','e'], strDTV), (['M','a','j','o','r','C','h'], ['1','2']),
   (['M','i','n','o','r','C','h'], ['0']), (['P','T','C'], ['5']),
   (['P','r','o','g','N','u','m'], ['3'])]

/-- The channel the XML path builds from `c5doc`. -/
def c5ch : Channel :=
  { ch_type := strDTV, major_ch := .str ['1','2'], minor_ch := .str ['0'],
    ptc := .str ['5'], prog_num := .str ['3'], dispno := ['1','2'], title := [] }

/-- Witness for C5 at `c5doc`. -/
theorem c5_xml_channel_fields_are_strings_witness :
    parse_xml c5doc = .ok c5ch ∧ as_xml c5ch = .error .percentDFormatError :=
  ⟨by decide, (c5_xml_channel_fields_are_strings c5doc c5ch (by decide)).2.2.2.2.2.1⟩

/-! ### Scanning lemmas for XML extraction -/

/-- If `p` is a prefix of `x ++ y`, then the first `x.length` characters
of `p` are a prefix of `x`. -/
theorem isPre_take_of_append : ∀ (p x y : List Char),
    isPre p (x ++ y) = true → isPre (p.take x.length) x = true := by
  intro p x
  induction x generalizing p with
  | nil => intro y h; simp [isPre]
  | cons c x ih =>
    intro y h
    cases p with
    | nil => simp [isPre]
    | cons q p =>
      simp only [List.cons_append, isPre, Bool.and_eq_true] at h
      simp only [List.length_cons, List.take_succ_cons, isPre, Bool.and_eq_true]
      exact ⟨h.1, ih p y h.2⟩

/-- `pat` cannot match at any position of the block `B`, no matter what
follows `B`: at every suffix of `B`, already the visible part of `pat`
fails to match. -/
def safeBlock (pat : List Char) : List Char → Bool
  | [] => true
  | c :: rest => !(isPre (pat.take (rest.length + 1)) (c :: rest)) && safeBlock pat rest

theorem dropThrough_safe (pat B : List Char) : ∀ (rest : List Char),
    safeBlock pat B = true → dropThrough pat (B ++ rest) = dropThrough pat rest := by
  induction B with
  | nil => intro rest _; rfl
  | cons c B ih =>
    intro rest hs
    simp only [safeBlock, Bool.and_eq_true, Bool.not_eq_true'] at hs
    cases hcase : isPre pat (c :: (B ++ rest)) with
    | true =>
      exfalso
      have h1 : isPre pat ((c :: B) ++ rest) = true := by rw [List.cons_append]; exact hcase
      have h2 := isPre_take_of_append pat (c :: B) rest h1
      rw [List.length_cons] at h2
      rw [h2] at hs
      exact absurd hs.1 (by simp)
    | false =>
      rw [List.cons_append]
      have hstep : dropThrough pat (c :: (B ++ rest)) = dropThrough pat (B ++ rest) := by
        simp only [dropThrough, hcase]
        simp
      rw [hstep]
      exact ih rest hs.2

/-- A block with no `<` is safe for any pattern that starts with `<`. -/
theorem safeBlock_no_open (ps : List Char) : ∀ (B : List Char),
    (∀ c ∈ B, c ≠ '<') → safeBlock ('<' :: ps) B = true := by
  intro B
  induction B with
  | nil => intro _; rfl
  | cons c B ih =>
    intro h
    simp only [safeBlock, Bool.and_eq_true, Bool.not_eq_true']
    refine ⟨?_, ih (fun x hx => h x (by simp [hx]))⟩
    simp only [List.take_succ_cons, isPre]
    have : (decide ('<' = c)) = false := by
      simp only [decide_eq_false_iff_not]
      exact fun e => h c (by simp) e.symm
    simp [this]

theorem isPre_append_self : ∀ (pat rest : List Char), isPre pat (pat ++ rest) = true := by
  intro pat
  induction pat with
  | nil => intro rest; rfl
  | cons p ps ih => intro rest; simp [isPre, ih]

theorem dropThrough_self (pat : List Char) (rest : List Char) (h : pat ≠ []) :
    dropThrough pat (pat ++ rest) = some rest := by
  cases pat with
  | nil => exact absurd rfl h
  | cons p ps =>
    have hpre : isPre (p :: ps) ((p :: ps) ++ rest) = true := isPre_append_self (p :: ps) rest
    rw [List.cons_append] at hpre ⊢
    have hstep : dropThrough (p :: ps) (p :: (ps ++ rest))
        = some ((p :: (ps ++ rest)).drop (p :: ps).length) := by
      simp only [dropThrough, hpre, if_true]
    rw [hstep]
    congr 1
    rw [show (p :: (ps ++ rest)) = (p :: ps) ++ rest from by simp, List.drop_left]

theorem takeWhileNeLt_append (xs ys : List Char) (h : ∀ c ∈ xs, c ≠ '<')
    (hy : ys.head? = some '<') :
    (xs ++ ys).takeWhile (fun c => c ≠ '<') = xs := by
  induction xs with
  | nil =>
    cases ys with
    | nil => simp at hy
    | cons b bs =>
      simp only [List.head?_cons, Option.some.injEq] at hy
      subst hy
      simp [List.takeWhile_cons]
  | cons a as ih =>
    simp only [List.cons_append, List.takeWhile_cons]
    rw [if_pos (by simpa using h a (by simp))]
    rw [ih (fun x hx => h x (by simp [hx]))]

/-! ### Extraction from the generated document -/

def xmlPre0 : List Char := "<?xml version=\"1.0\" encoding=\"UTF-8\" ?><Channel>".data

def patChType : List Char := "<ChType>".data

def closeChType : List Char := "</ChType>".data

def patMajorCh : List Char := "<MajorCh>".data

def closeMajorCh : List Char := "</MajorCh>".data

def patMinorCh : List Char := "<MinorCh>".data

def closeMinorCh : List Char := "</MinorCh>".data

def patPTC : List Char := "<PTC>".data

def closePTC : List Char := "</PTC>".data

def patProgNum : List Char := "<ProgNum>".data

/-- The document `as_xml` produces, in right-nested form. -/
def chDoc (E d1 d2 d3 d4 : List Char) : List Char :=
  xmlPre ++ (E ++ (xmlSep1 ++ (d1 ++ (xmlSep2 ++ (d2 ++ (xmlSep3 ++
    (d3 ++ (xmlSep4 ++ (d4 ++ xmlSuf)))))))))

theorem extract_ChType (E d1 d2 d3 d4 : List Char) (hE : ∀ c ∈ E, c ≠ '<') :
    extractTag ['C','h','T','y','p','e'] (chDoc E d1 d2 d3 d4) = some (xmlUnescape E) := by
  unfold extractTag chDoc
  rw [show ('<' :: ['C','h','T','y','p','e']) ++ ['>'] = patChType from by decide]
  rw [show xmlPre = xmlPre0 ++ patChType from by decide]
  rw [List.append_assoc]
  rw [dropThrough_safe patChType xmlPre0 _ (by decide)]
  rw [dropThrough_self patChType _ (by decide)]
  simp only [Option.map_some']
  congr 1
  rw [takeWhileNeLt_append E _ hE
        (by rw [List.head?_append, show xmlSep1.head? = some '<' from by decide]; rfl)]

theorem extract_MajorCh (E d1 d2 d3 d4 : List Char) (hE : ∀ c ∈ E, c ≠ '<')
    (hd1 : ∀ c ∈ d1, c ≠ '<') :
    extractTag ['M','a','j','o','r','C','h'] (chDoc E d1 d2 d3 d4)
      = some (xmlUnescape d1) := by
  unfold extractTag chDoc
  rw [show ('<' :: ['M','a','j','o','r','C','h']) ++ ['>'] = patMajorCh from by decide]
  rw [show xmlSep1 = closeChType ++ patMajorCh from by decide]
  simp only [List.append_assoc]
  rw [dropThrough_safe patMajorCh xmlPre _ (by decide)]
  rw [dropThrough_safe patMajorCh E _ (safeBlock_no_open _ E hE)]
  rw [dropThrough_safe patMajorCh closeChType _ (by decide)]
  rw [dropThrough_self patMajorCh _ (by decide)]
  simp only [Option.map_some']
  congr 1
  rw [takeWhileNeLt_append d1 _ hd1
        (by rw [List.head?_append, show xmlSep2.head? = some '<' from by decide]; rfl)]

theorem extract_MinorCh (E d1 d2 d3 d4 : List Char) (hE : ∀ c ∈ E, c ≠ '<')
    (hd1 : ∀ c ∈ d1, c ≠ '<') (hd2 : ∀ c ∈ d2, c ≠ '<') :
    extractTag ['M','i','n','o','r','C','h'] (chDoc E d1 d2 d3 d4)
      = some (xmlUnescape d2) := by
  unfold extractTag chDoc
  rw [show ('<' :: ['M','i','n','o','r','C','h']) ++ ['>'] = patMinorCh from by decide]
  rw [show xmlSep2 = closeMajorCh ++ patMinorCh from by decide]
  simp only [List.append_assoc]
  rw [dropThrough_safe patMinorCh xmlPre _ (by decide)]
  rw [dropThrough_safe patMinorCh E _ (safeBlock_no_open _ E hE)]
  rw [dropThrough_safe patMinorCh xmlSep1 _ (by decide)]
  rw [dropThrough_safe patMinorCh d1 _ (safeBlock_no_open _ d1 hd1)]
  rw [dropThrough_safe patMinorCh closeMajorCh _ (by decide)]
  rw [dropThrough_self patMinorCh _ (by decide)]
  simp only [Option.map_some']
  congr 1
  rw [takeWhileNeLt_append d2 _ hd2
        (by rw [List.head?_append, show xmlSep3.head? = some '<' from by decide]; rfl)]

theorem extract_PTC (E d1 d2 d3 d4 : List Char) (hE : ∀ c ∈ E, c ≠ '<')
    (hd1 : ∀ c ∈ d1, c ≠ '<') (hd2 : ∀ c ∈ d2, c ≠ '<') (hd3 : ∀ c ∈ d3, c ≠ '<') :
    extractTag ['P','T','C'] (chDoc E d1 d2 d3 d4) = some (xmlUnescape d3) := by
  unfold extractTag chDoc
  rw [show ('<' :: ['P','T','C']) ++ ['>'] = patPTC from by decide]
  rw [show xmlSep3 = closeMinorCh ++ patPTC from by decide]
  simp only [List.append_assoc]
  rw [dropThrough_safe patPTC xmlPre _ (by decide)]
  rw [dropThrough_safe patPTC E _ (safeBlock_no_open _ E hE)]
  rw [dropThrough_safe patPTC xmlSep1 _ (by decide)]
  rw [dropThrough_safe patPTC d1 _ (safeBlock_no_open _ d1 hd1)]
  rw [dropThrough_safe patPTC xmlSep2 _ (by decide)]
  rw [dropThrough_safe patPTC d2 _ (safeBlock_no_open _ d2 hd2)]
  rw [dropThrough_safe patPTC closeMinorCh _ (by decide)]
  rw [dropThrough_self patPTC _ (by decide)]
  simp only [Option.map_some']
  congr 1
  rw [takeWhileNeLt_append d3 _ hd3
        (by rw [List.head?_append, show xmlSep4.head? = some '<' from by decide]; rfl)]

theorem extract_ProgNum (E d1 d2 d3 d4 : List Char) (hE : ∀ c ∈ E, c ≠ '<')
    (hd1 : ∀ c ∈ d1, c ≠ '<') (hd2 : ∀ c ∈ d2, c ≠ '<') (hd3 : ∀ c ∈ d3, c ≠ '<')
    (hd4 : ∀ c ∈ d4, c ≠ '<') :
    extractTag ['P','r','o','g','N','u','m'] (chDoc E d1 d2 d3 d4)
      = some (xmlUnescape d4) := by
  unfold extractTag chDoc
  rw [show ('<' :: ['P','r','o','g','N','u','m']) ++ ['>'] = patProgNum from by decide]
  rw [show xmlSep4 = closePTC ++ patProgNum from by decide]
  simp only [List.append_assoc]
  rw [dropThrough_safe patProgNum xmlPre _ (by decide)]
  rw [dropThrough_safe patProgNum E _ (safeBlock_no_open _ E hE)]
  rw [dropThrough_safe patProgNum xmlSep1 _ (by decide)]
  rw [dropThrough_safe patProgNum d1 _ (safeBlock_no_open _ d1 hd1)]
  rw [dropThrough_safe patProgNum xmlSep2 _ (by decide)]
  rw [dropThrough_safe patProgNum d2 _ (safeBlock_no_open _ d2 hd2)]
  rw [dropThrough_safe patProgNum xmlSep3 _ (by decide)]
  rw [dropThrough_safe patProgNum d3 _ (safeBlock_no_open _ d3 hd3)]
  rw [dropThrough_safe patProgNum closePTC _ (by decide)]
  rw [dropThrough_self patProgNum _ (by decide)]
  simp only [Option.map_some']
  congr 1
  rw [takeWhileNeLt_append d4 _ hd4 (by decide)]

theorem natToDecimal_no_markup (n : Nat) : ∀ c ∈ natToDecimal n, c ≠ '<' ∧ c ≠ '&' := by
  intro c hc
  have hd := natToDecimal_all_digits n c hc
  constructor <;> intro e <;> subst e <;> exact absurd hd (by decide)

/-! ### C3 — binary → XML → fields round-trip -/

/-- C3: for every `Channel` built from a binary record, `as_xml` succeeds,
and extracting the five child-element values from the produced document
(scanning to the first `<Tag>`, taking the text up to the next markup and
resolving entities, as the XML construction path does) reproduces the
original fields exactly: the `ChType` text is `ch_type` itself, and the
other four texts read back as the original numbers. -/
theorem c3_binary_xml_roundtrip (buf : List Nat) (ch : Channel)
    (h : parse_dat buf = .ok ch) :
    ∃ doc m mi pt pn,
      ch.major_ch = .int m ∧ ch.minor_ch = .int mi ∧
      ch.ptc = .int pt ∧ ch.prog_num = .int pn ∧
      as_xml ch = .ok doc ∧
      extractTag ['C','h','T','y','p','e'] doc = some ch.ch_type ∧
      (extractTag ['M','a','j','o','r','C','h'] doc).bind decToNat = some m ∧
      (extractTag ['M','i','n','o','r','C','h'] doc).bind decToNat = some mi ∧
      (extractTag ['P','T','C'] doc).bind decToNat = some pt ∧
      (extractTag ['P','r','o','g','N','u','m'] doc).bind decToNat = some pn := by
  obtain ⟨-, hma, hmi, hpt, hpn, -, -, -⟩ := parse_dat_ok_inv h
  have hE : ∀ c ∈ escape ch.ch_type, c ≠ '<' := fun c hc => (escape_no_angle _ c hc).1
  have hdig : ∀ k : Nat, ∀ c ∈ natToDecimal k, c ≠ '<' :=
    fun k c hc => (natToDecimal_no_markup k c hc).1
  have hamp : ∀ k : Nat, xmlUnescape (natToDecimal k) = natToDecimal k :=
    fun k => xmlUnescape_no_amp _ (fun c hc => (natToDecimal_no_markup k c hc).2)
  refine ⟨chDoc (escape ch.ch_type) (natToDecimal (getint buf 2)) (natToDecimal (getint buf 4))
            (natToDecimal (getint buf 6)) (natToDecimal (getint buf 8)),
          getint buf 2, getint buf 4, getint buf 6, getint buf 8,
          hma, hmi, hpt, hpn, ?_, ?_, ?_, ?_, ?_, ?_⟩
  · simp [as_xml, hma, hmi, hpt, hpn, renderD, chDoc, List.append_assoc]
  · rw [extract_ChType _ _ _ _ _ hE, escape_unescape]
  · rw [extract_MajorCh _ _ _ _ _ hE (hdig _), hamp, Option.some_bind, decToNat_natToDecimal]
  · rw [extract_MinorCh _ _ _ _ _ hE (hdig _) (hdig _), hamp, Option.some_bind,
        decToNat_natToDecimal]
  · rw [extract_PTC _ _ _ _ _ hE (hdig _) (hdig _) (hdig _), hamp, Option.some_bind,
        decToNat_natToDecimal]
  · rw [extract_ProgNum _ _ _ _ _ hE (hdig _) (hdig _) (hdig _) (hdig _), hamp,
        Option.some_bind, decToNat_natToDecimal]

/-- The spec's concrete scenario record: type 4 (CDTV), major 7, minor 0,
ptc 33, prog_num 1, reserved 0xFFFF, dispno "7\0\0\0", title "Tele5". -/
def c3rec : List Nat :=
  [4, 0, 7, 0, 0, 0, 33, 0, 1, 0, 255, 255, 55, 0, 0, 0, 0, 0, 0, 0, 0, 0, 5, 0]
    ++ [84, 101, 108, 101, 53] ++ List.replicate 95 0

/-- The channel decoded from `c3rec`. -/
def c3ch : Channel :=
  { ch_type := strCDTV, major_ch := .int 7, minor_ch := .int 0, ptc := .int 33,
    prog_num := .int 1, dispno := ['7'], title := ['T', 'e', 'l', 'e', '5'] }

/-- Witness for C3 at the spec's concrete scenario record. -/
theorem c3_binary_xml_roundtrip_witness :
    ∃ doc m mi pt pn,
      c3ch.major_ch = .int m ∧ c3ch.minor_ch = .int mi ∧
      c3ch.ptc = .int pt ∧ c3ch.prog_num = .int pn ∧
      as_xml c3ch = .ok doc ∧
      extractTag ['C','h','T','y','p','e'] doc = some c3ch.ch_type ∧
      (extractTag ['M','a','j','o','r','C','h'] doc).bind decToNat = some m ∧
      (extractTag ['M','i','n','o','r','C','h'] doc).bind decToNat = some mi ∧
      (extractTag ['P','T','C'] doc).bind decToNat = some pt ∧
      (extractTag ['P','r','o','g','N','u','m'] doc).bind decToNat = some pn :=
  c3_binary_xml_roundtrip c3rec c3ch (by decide)

/-! ### Python-dict semantics lemmas -/

/-- The dictionary `_parse_channel_list` builds from a list of decoded
channels: `channels[ch.dispno] = ch` in record order. -/
def buildDict (chs : List Channel) : ChannelDict :=
  chs.foldl (fun d c => dictSet d c.dispno c) []

theorem dictSet_map_fst (d : ChannelDict) (k : List Char) (v : Channel) :
    (dictSet d k v).map Prod.fst =
      if k ∈ d.map Prod.fst then d.map Prod.fst else d.map Prod.fst ++ [k] := by
  unfold dictSet
  by_cases h : d.any (fun p => p.1 = k)
  · have hk : k ∈ d.map Prod.fst := by
      simp only [List.any_eq_true, decide_eq_true_eq] at h
      obtain ⟨p, hp, he⟩ := h
      exact List.mem_map.mpr ⟨p, hp, he⟩
    rw [if_pos h, if_pos hk, List.map_map]
    apply List.map_congr_left
    intro p _
    by_cases hp : p.1 = k
    · simp [hp]
    · simp [hp]
  · have hk : k ∉ d.map Prod.fst := by
      intro hc
      obtain ⟨p, hp, he⟩ := List.mem_map.mp hc
      exact h (List.any_eq_true.mpr ⟨p, hp, by simp [he]⟩)
    rw [if_neg h, if_neg hk, List.map_append]
    rfl

theorem dictSet_length (d : ChannelDict) (k : List Char) (v : Channel) :
    (dictSet d k v).length =
      if k ∈ d.map Prod.fst then d.length else d.length + 1 := by
  rw [← List.length_map (dictSet d k v) Prod.fst, dictSet_map_fst]
  by_cases h : k ∈ d.map Prod.fst
  · simp [h]
  · simp [h]

theorem mem_keys_dictSet (d : ChannelDict) (k v k') :
    k' ∈ (dictSet d k v).map Prod.fst ↔ k' = k ∨ k' ∈ d.map Prod.fst := by
  rw [dictSet_map_fst]
  by_cases h : k ∈ d.map Prod.fst
  · rw [if_pos h]
    constructor
    · exact fun hm => Or.inr hm
    · rintro (rfl | hm)
      · exact h
      · exact hm
  · rw [if_neg h]
    rw [List.mem_append, List.mem_singleton]
    exact or_comm

theorem find?_map_overwrite (d : ChannelDict) (k k' : List Char) (v : Channel)
    (hne : k' ≠ k) :
    (d.map (fun q => if q.1 = k then (k, v) else q)).find? (fun p => p.1 = k')
      = d.find? (fun p => p.1 = k') := by
  induction d with
  | nil => rfl
  | cons q d ih =>
    by_cases hq : q.1 = k
    · simp only [List.map_cons, if_pos hq]
      rw [List.find?_cons_of_neg _ (by simp; exact fun e => hne e.symm),
          List.find?_cons_of_neg _ (by simp [hq]; exact fun e => hne e.symm)]
      exact ih
    · simp only [List.map_cons, if_neg hq]
      by_cases hq' : q.1 = k'
      · rw [List.find?_cons_of_pos _ (by simp [hq']), List.find?_cons_of_pos _ (by simp [hq'])]
      · rw [List.find?_cons_of_neg _ (by simp [hq']), List.find?_cons_of_neg _ (by simp [hq'])]
        exact ih

theorem find?_map_overwrite_self (d : ChannelDict) (k : List Char) (v : Channel)
    (hany : d.any (fun p => p.1 = k) = true) :
    (d.map (fun q => if q.1 = k then (k, v) else q)).find? (fun p => p.1 = k)
      = some (k, v) := by
  induction d with
  | nil => simp at hany
  | cons q d ih =>
    by_cases hq : q.1 = k
    · simp only [List.map_cons, if_pos hq]
      rw [List.find?_cons_of_pos _ (by simp)]
    · simp only [List.map_cons, if_neg hq]
      rw [List.find?_cons_of_neg _ (by simp [hq])]
      simp only [List.any_cons, Bool.or_eq_true, decide_eq_true_eq] at hany
      rcases hany with hc | hany
      · exact absurd hc hq
      · exact ih hany

theorem dictGet_dictSet (d : ChannelDict) (k k' : List Char) (v : Channel) :
    dictGet (dictSet d k v) k' = if k' = k then some v else dictGet d k' := by
  by_cases hany : d.any (fun p => p.1 = k)
  · unfold dictSet
    rw [if_pos hany]
    by_cases hk : k' = k
    · subst hk
      unfold dictGet
      rw [find?_map_overwrite_self d k' v hany]
      simp
    · unfold dictGet
      rw [find?_map_overwrite d k k' v hk, if_neg hk]
  · unfold dictSet
    rw [if_neg hany]
    unfold dictGet
    rw [List.find?_append]
    have hnone : d.find? (fun p => p.1 = k) = none := by
      rw [List.find?_eq_none]
      intro x hx hpx
      exact hany (List.any_eq_true.mpr ⟨x, hx, hpx⟩)
    by_cases hk : k' = k
    · subst hk
      rw [hnone]
      simp
    · rw [if_neg hk]
      have : ([((k, v) : List Char × Channel)].find? (fun p => p.1 = k')) = none := by
        simp [List.find?_cons, Ne.symm hk]
      rw [this]
      cases d.find? (fun p => p.1 = k') <;> rfl

theorem mem_keys_foldl (chs : List Channel) : ∀ (d : ChannelDict) (k : List Char),
    k ∈ ((chs.foldl (fun d c => dictSet d c.dispno c) d).map Prod.fst) ↔
      k ∈ d.map Prod.fst ∨ k ∈ chs.map (fun c => c.dispno) := by
  induction chs with
  | nil => intro d k; simp
  | cons c chs ih =>
    intro d k
    rw [List.foldl_cons, ih]
    rw [mem_keys_dictSet]
    simp only [List.map_cons, List.mem_cons]
    tauto

theorem length_foldl_le (chs : List Channel) : ∀ (d : ChannelDict),
    (chs.foldl (fun d c => dictSet d c.dispno c) d).length ≤ d.length + chs.length := by
  induction chs with
  | nil => intro d; simp
  | cons c chs ih =>
    intro d
    rw [List.foldl_cons]
    calc (chs.foldl (fun d c => dictSet d c.dispno c) (dictSet d c.dispno c)).length
        ≤ (dictSet d c.dispno c).length + chs.length := ih _
      _ ≤ d.length + (c :: chs).length := by
          rw [dictSet_length]
          by_cases h : c.dispno ∈ d.map Prod.fst <;> simp [h] <;> omega

theorem length_foldl_nodup (chs : List Channel) : ∀ (d : ChannelDict),
    (chs.map (fun c => c.dispno)).Nodup →
    (∀ c ∈ chs, c.dispno ∉ d.map Prod.fst) →
    (chs.foldl (fun d c => dictSet d c.dispno c) d).length = d.length + chs.length := by
  induction chs with
  | nil => intro d _ _; simp
  | cons c chs ih =>
    intro d hnd hfresh
    rw [List.map_cons, List.nodup_cons] at hnd
    rw [List.foldl_cons]
    have hnew : c.dispno ∉ d.map Prod.fst := hfresh c (by simp)
    have hlen : (dictSet d c.dispno c).length = d.length + 1 := by
      rw [dictSet_length, if_neg hnew]
    rw [ih (dictSet d c.dispno c) hnd.2 ?fresh, hlen]
    · simp [Nat.add_assoc, Nat.add_comm 1 chs.length]
    case fresh =>
      intro c' hc'
      rw [mem_keys_dictSet]
      rintro (he | hm)
      · exact hnd.1 (he ▸ List.mem_map_of_mem (fun c => c.dispno) hc')
      · exact hfresh c' (by simp [hc']) hm

theorem length_foldl_dup (chs : List Channel) : ∀ (d : ChannelDict),
    ((∃ c ∈ chs, c.dispno ∈ d.map Prod.fst) ∨ ¬ (chs.map (fun c => c.dispno)).Nodup) →
    (chs.foldl (fun d c => dictSet d c.dispno c) d).length < d.length + chs.length := by
  induction chs with
  | nil =>
    intro d h
    rcases h with ⟨c, hc, -⟩ | h
    · exact absurd hc (by simp)
    · exact absurd (by simp : (List.map (fun c => c.dispno) ([] : List Channel)).Nodup) h
  | cons c chs ih =>
    intro d h
    rw [List.foldl_cons]
    by_cases hc : c.dispno ∈ d.map Prod.fst
    · have hlen : (dictSet d c.dispno c).length = d.length := by
        rw [dictSet_length, if_pos hc]
      calc (chs.foldl (fun d c => dictSet d c.dispno c) (dictSet d c.dispno c)).length
          ≤ (dictSet d c.dispno c).length + chs.length := length_foldl_le chs _
        _ = d.length + chs.length := by rw [hlen]
        _ < d.length + (c :: chs).length := by simp
    · have hnext : (∃ c' ∈ chs, c'.dispno ∈ (dictSet d c.dispno c).map Prod.fst) ∨
          ¬ (chs.map (fun c => c.dispno)).Nodup := by
        rcases h with ⟨c', hc', hm⟩ | hnd
        · rcases List.mem_cons.mp hc' with rfl | hc'
          · exact absurd hm hc
          · exact Or.inl ⟨c', hc', by rw [mem_keys_dictSet]; exact Or.inr hm⟩
        · rw [List.map_cons, List.nodup_cons] at hnd
          push_neg at hnd
          by_cases hmem : c.dispno ∈ chs.map (fun c => c.dispno)
          · obtain ⟨c', hc', he⟩ := List.mem_map.mp hmem
            exact Or.inl ⟨c', hc', by
              rw [mem_keys_dictSet]
              exact Or.inl he⟩
          · exact Or.inr (hnd hmem)
      have hlen : (dictSet d c.dispno c).length = d.length + 1 := by
        rw [dictSet_length, if_neg hc]
      calc (chs.foldl (fun d c => dictSet d c.dispno c) (dictSet d c.dispno c)).length
          < (dictSet d c.dispno c).length + chs.length := ih _ hnext
        _ = d.length + (c :: chs).length := by rw [hlen]; simp; omega

theorem dictGet_foldl (chs : List Channel) : ∀ (d : ChannelDict) (k : List Char),
    dictGet (chs.foldl (fun d c => dictSet d c.dispno c) d) k =
      Option.or ((chs.filter (fun c => c.dispno = k)).getLast?) (dictGet d k) := by
  induction chs with
  | nil => intro d k; simp
  | cons c chs ih =>
    intro d k
    rw [List.foldl_cons, ih]
    by_cases hck : c.dispno = k
    · rw [List.filter_cons_of_pos (by simp [hck])]
      rw [dictGet_dictSet, if_pos hck.symm]
      cases hfl : chs.filter (fun c => c.dispno = k) with
      | nil => simp
      | cons x xs =>
        rw [List.getLast?_cons_cons]
        cases h2 : (x :: xs).getLast? with
        | none => exact absurd (List.getLast?_eq_none_iff.mp h2) (by simp)
        | some y => simp [Option.or_some]
    · rw [List.filter_cons_of_neg (by simp [hck])]
      rw [dictGet_dictSet, if_neg (fun e => hck e.symm)]

/-! ### The record loop -/

theorem flatten_length_124 (recs : List (List Nat)) (hlen : ∀ r ∈ recs, r.length = 124) :
    recs.flatten.length = 124 * recs.length := by
  induction recs with
  | nil => simp
  | cons r recs ih =>
    rw [List.flatten_cons, List.length_append, hlen r (by simp),
        ih (fun x hx => hlen x (by simp [hx])), List.length_cons]
    ring

theorem parseLoop_spec (recs : List (List Nat)) :
    ∀ (chs : List Channel) (pre : List Nat) (acc : ChannelDict),
    (∀ r ∈ recs, r.length = 124) →
    List.Forall₂ (fun r c => parse_dat r = .ok c) recs chs →
    parseLoop (pre ++ recs.flatten) pre.length acc
      = .ok (chs.foldl (fun d c => dictSet d c.dispno c) acc) := by
  induction recs with
  | nil =>
    intro chs pre acc hlen hf
    cases hf
    rw [List.flatten_nil, List.append_nil, parseLoop, dif_neg (by omega)]
    simp
  | cons r recs ih =>
    intro chs pre acc hlen hf
    cases hf with
    | cons hrc hf' =>
      rw [List.flatten_cons, parseLoop]
      have hr : r.length = 124 := hlen r (by simp)
      have hpos : pre.length < (pre ++ (r ++ recs.flatten)).length := by
        simp [hr]
      rw [dif_pos hpos]
      have hslice : pySlice (pre ++ (r ++ recs.flatten)) pre.length (pre.length + 124) = r := by
        unfold pySlice
        rw [List.drop_left, show pre.length + 124 - pre.length = 124 from by omega]
        rw [List.take_append_of_le_length (by omega), List.take_of_length_le (by omega)]
      rw [hslice, hrc]
      dsimp only
      rw [show pre ++ (r ++ recs.flatten) = (pre ++ r) ++ recs.flatten from
            (List.append_assoc pre r recs.flatten).symm]
      rw [show pre.length + 124 = (pre ++ r).length from by simp [hr]]
      rw [ih _ (pre ++ r) _ (fun x hx => hlen x (by simp [hx])) hf']
      rw [List.foldl_cons]

/-! ### C4 — decoding a well-formed buffer -/

/-- Counterexample to C4 as stated: the buffer `[0,0,0,0]` has the form
"4-byte header with count N followed by exactly N valid records" for
N = 0 (the header declares count 0 and zero records follow), yet decode
fails with the size error instead of succeeding. -/
theorem c4_counterexample :
    getint [0, 0, 0, 0] 2 = 0 ∧
    parse_channel_list [0, 0, 0, 0] = .error (.sizeError 4 128) := by
  decide

/-- C4 (amended): for every buffer of the form 4-byte header declaring
count N followed by exactly N valid 124-byte records, with N ≥ 1, decode
succeeds and returns the dictionary built by storing each record's channel
under its dispno in buffer order: it has one key per distinct dispno —
exactly N keys when the dispnos are pairwise distinct, strictly fewer on a
collision — and each key maps to the channel of the LAST record in buffer
order with that dispno (last-write-wins). -/
theorem c4_amended_decode_valid_buffer (b0 b1 : Nat) (recs : List (List Nat))
    (chs : List Channel)
    (hlen : ∀ r ∈ recs, r.length = 124)
    (hok : List.Forall₂ (fun r c => parse_dat r = .ok c) recs chs)
    (hN1 : 1 ≤ recs.length) (hN2 : recs.length ≤ 65535) :
    parse_channel_list
        (b0 :: b1 :: (recs.length % 256) :: (recs.length / 256) :: recs.flatten)
      = .ok (buildDict chs) ∧
    ((chs.map (fun c => c.dispno)).Nodup → (buildDict chs).length = recs.length) ∧
    (¬ (chs.map (fun c => c.dispno)).Nodup → (buildDict chs).length < recs.length) ∧
    ∀ k, dictGet (buildDict chs) k = (chs.filter (fun c => c.dispno = k)).getLast? := by
  have hchs : chs.length = recs.length := hok.length_eq.symm
  have hflat : recs.flatten.length = 124 * recs.length := flatten_length_124 recs hlen
  refine ⟨?_, ?_, ?_, ?_⟩
  · have hbuflen :
        (b0 :: b1 :: (recs.length % 256) :: (recs.length / 256) :: recs.flatten).length
          = 4 + 124 * recs.length := by
      simp [hflat]
      omega
    have hget :
        getint (b0 :: b1 :: (recs.length % 256) :: (recs.length / 256) :: recs.flatten) 2
          = recs.length := by
      show recs.length % 256 + 256 * (recs.length / 256) = recs.length
      exact Nat.mod_add_div recs.length 256
    unfold parse_channel_list
    rw [if_neg (by rw [hbuflen]; omega)]
    rw [if_neg (not_ne_iff.mpr (by rw [hbuflen]; omega))]
    rw [if_neg (not_ne_iff.mpr (by rw [hbuflen, hget]; omega))]
    exact parseLoop_spec recs chs [b0, b1, recs.length % 256, recs.length / 256] [] hlen hok
  · intro hnd
    rw [show recs.length = ([] : ChannelDict).length + chs.length from by simp [hchs]]
    exact length_foldl_nodup chs [] hnd (by simp)
  · intro hnd
    rw [show recs.length = ([] : ChannelDict).length + chs.length from by simp [hchs]]
    exact length_foldl_dup chs [] (Or.inr hnd)
  · intro k
    rw [show dictGet (buildDict chs) k
          = Option.or ((chs.filter (fun c => c.dispno = k)).getLast?) (dictGet [] k) from
            dictGet_foldl chs [] k]
    rw [show dictGet [] k = none from rfl, Option.or_none]

/-- Witness for the amended C4: the spec's concrete one-record buffer. -/
theorem c4_amended_decode_valid_buffer_witness :
    parse_channel_list (0 :: 0 :: 1 :: 0 :: c3rec) = .ok (buildDict [c3ch]) ∧
      (buildDict [c3ch]).length = 1 := by
  have h := c4_amended_decode_valid_buffer 0 0 [c3rec] [c3ch]
    (by intro r hr; rw [List.mem_singleton] at hr; subst hr; decide)
    (List.Forall₂.cons (by decide) List.Forall₂.nil) (by simp) (by simp)
  exact ⟨by simpa using h.1, by simpa using h.2.1 (by decide)⟩

end SamsungChannel
